import Mathlib

/-!
# Verification of the grepctl ingestion / embedding-repair pipeline

Shallow embedding of the corpus-maintenance operations of the repository:

* `src/ingest_json_csv.py` — JSON/CSV ingestion (`process_json_file`,
  `insert_to_bigquery`, `main`);
* `src/setup_mmgrep.py` — text/markdown ingestion (`ingest_simple_data`) and
  `create_search_corpus`;
* `src/grepctl.py` — `index verify` and `fix stuck`;
* `src/complete_vision_analysis.py` — per-image Vision analysis and update;
* `src/obsolete/update_all_images_vision.py` — batch update with individual
  fallback.

The BigQuery tables are modelled as lists of records; SQL statements become
list transformations.  Embedding vectors are modelled with `Int` entries:
only presence and length of a vector matter to any modelled operation.
Python character-slicing (`s[:n]`) is `pyTake`, `'sep'.join(parts)` is
`pyJoin`.
-/

namespace Grepctl

/-- Python `s[:n]` on strings: the first `n` characters. -/
def pyTake (n : Nat) (s : String) : String :=
  String.mk (s.data.take n)

/-- Python `sep.join(parts)`. -/
def pyJoin (sep : String) : List String → String
  | [] => ""
  | [x] => x
  | x :: y :: rest => x ++ sep ++ pyJoin sep (y :: rest)

/-- Python `uri.split('/')[-1]` (the empty string when the split is empty,
which cannot happen for `str.split`). -/
def lastComponent (uri : String) : String :=
  (uri.splitOn "/").getLastD ""

/-- A row of the `documents` / `search_corpus` tables (`setup_mmgrep.py`
`create_core_tables`, restricted to the columns the modelled operations
read or write).  `source` is `none` for rows inserted without that column
(`ingest_json_csv.py` `insert_to_bigquery`). -/
structure Record where
  uri : String
  modality : String
  source : Option String
  text_content : Option String
  embedding : Option (List Int)
deriving DecidableEq

/-- A row of an external object table (`obj_text` / `obj_markdown`):
`SAFE_CAST(data AS STRING)` may be NULL, hence `Option`. -/
structure ObjRow where
  uri : String
  data : Option String
deriving DecidableEq

/-- SQL `ARRAY_LENGTH(embedding) = n`: NULL embeddings compare as NULL,
so the `CASE WHEN`/`WHERE` treats them as not matching. -/
def arrayLengthEq (e : Option (List Int)) (n : Nat) : Bool :=
  match e with
  | some v => v.length == n
  | none => false

/-- Text-file ingestion (`setup_mmgrep.py::ingest_simple_data`, first query):
insert every `obj_text` row whose `uri` is not already present among
documents with `modality = 'text'`; `text_content` is the cast blob data,
`embedding` NULL. -/
def ingest_text (objText : List ObjRow) (documents : List Record) : List Record :=
  documents ++
    (objText.filter (fun o =>
      !(documents.any (fun r => r.modality == "text" && r.uri == o.uri)))).map
      (fun o => { uri := o.uri, modality := "text", source := some "file",
                  text_content := o.data, embedding := none })

/-- Markdown ingestion (`setup_mmgrep.py::ingest_simple_data`, second query):
like `ingest_text` but the inserted rows carry `source = 'markdown'` (still
`modality = 'text'`), and the duplicate filter keys on `source = 'markdown'`. -/
def ingest_markdown (objMarkdown : List ObjRow) (documents : List Record) : List Record :=
  documents ++
    (objMarkdown.filter (fun o =>
      !(documents.any (fun r => r.source == some "markdown" && r.uri == o.uri)))).map
      (fun o => { uri := o.uri, modality := "text", source := some "markdown",
                  text_content := o.data, embedding := none })

/-- `setup_mmgrep.py::create_search_corpus`: `CREATE OR REPLACE TABLE
search_corpus AS SELECT ... CAST(NULL AS ARRAY<FLOAT64>) AS embedding FROM
documents WHERE text_content IS NOT NULL`. -/
def create_search_corpus (documents : List Record) : List Record :=
  (documents.filter (fun r => r.text_content.isSome)).map
    (fun r => { r with embedding := none })

/-- `ingest_json_csv.py::main`, `existing_query`: uris already in
`search_corpus` with `modality IN ('json', 'csv')`. -/
def jsonCsvExisting (corpus : List Record) : List String :=
  (corpus.filter (fun r => r.modality == "json" || r.modality == "csv")).map (·.uri)

/-- A computable decision procedure for the lexicographic order on character
lists (the library's decidability instance for string order is defined by
well-founded recursion on byte iterators and does not reduce in the
kernel). -/
def decListLex : (as bs : List Char) → Decidable (List.Lex (· < ·) as bs)
  | _, [] => isFalse (fun h => by cases h)
  | [], _ :: _ => isTrue List.Lex.nil
  | a :: as, b :: bs =>
    if h1 : a.toNat < b.toNat then isTrue (List.Lex.rel h1)
    else if h2 : b.toNat < a.toNat then
      isFalse (fun hlex => by
        cases hlex with
        | cons h => omega
        | rel h => exact absurd (show a.toNat < b.toNat from h) h1)
    else
      have heq : a = b :=
        have h3 : a.toNat = b.toNat := by omega
        Char.eq_of_val_eq (UInt32.ext h3)
      match decListLex as bs with
      | isTrue h => isTrue (by rw [heq]; exact List.Lex.cons h)
      | isFalse h => isFalse (fun hlex => by
          cases hlex with
          | cons hl => exact h hl
          | rel hr => exact absurd (show a.toNat < b.toNat from hr) h1)

/-- Computable decidability of `≤` on strings (which is `≤` on the
underlying character lists). -/
def decStrLE (a b : String) : Decidable (a ≤ b) :=
  match decListLex b.data a.data with
  | isTrue h =>
      isFalse (fun hle =>
        absurd (String.le_iff_toList_le.mp hle) (not_le_of_lt h))
  | isFalse h => isTrue (String.le_iff_toList_le.mpr (not_lt.mp h))

/-- SQL `ORDER BY` over a string column: sort ascending by the
lexicographic order, using the computable comparison. -/
def orderBy (l : List String) : List String :=
  @List.insertionSort String (fun a b => a ≤ b) decStrLE l

/-- `ingest_json_csv.py::main`: `SELECT DISTINCT uri FROM obj_x ORDER BY uri`
followed by the list comprehension dropping uris already ingested. -/
def pendingUris (objTable : List String) (existing : List String) : List String :=
  (orderBy objTable.dedup).filter (fun u => !(existing.contains u))

/-- A document built by the `ingest_json_csv.py::main` processing loops and
inserted by `insert_to_bigquery` (which sets `embedding` to NULL; no
`source` column is supplied). -/
def mkIngestDoc (modality uri text : String) : Record :=
  { uri := uri, modality := modality, source := none,
    text_content := some text, embedding := none }

/-- The `ingest_json_csv.py::main` processing loop over one batch of uris:
the extraction adapter (`process_json_file` / `process_csv_file`) returns
`none` when it caught a per-document failure; only successful documents are
collected. -/
def process_uris (extract : String → Option String) (modality : String)
    (uris : List String) : List Record :=
  uris.filterMap (fun u => (extract u).map (fun t => mkIngestDoc modality u t))

/-- The uris the `ingest_json_csv.py::main` loop logs as failed
(`✗ Failed ...`): those whose adapter returned no content. -/
def failed_uris (extract : String → Option String) (uris : List String) : List String :=
  uris.filter (fun u => (extract u).isNone)

/-- `ingest_json_csv.py::main`: compute the already-ingested uri set, list
pending JSON and CSV uris, process the first 50 of each
(`json_uris[:50]`, `csv_uris[:50]`), and insert all successfully extracted
documents into `search_corpus`. -/
def ingest_json_csv_main (objJson objCsv : List String)
    (extractJson extractCsv : String → Option String)
    (corpus : List Record) : List Record :=
  corpus ++
    (process_uris extractJson "json"
        ((pendingUris objJson (jsonCsvExisting corpus)).take 50) ++
      process_uris extractCsv "csv"
        ((pendingUris objCsv (jsonCsvExisting corpus)).take 50))

/-- Substring test on the underlying character lists (SQL
`LIKE '%pat%'`). -/
def listHasSub (pat : List Char) : List Char → Bool
  | [] => pat.isEmpty
  | c :: rest => pat.isPrefixOf (c :: rest) || listHasSub pat rest

/-- SQL `t LIKE '%pat%'` for a pattern with no metacharacters. -/
def strHasSub (hay pat : String) : Bool :=
  listHasSub pat.data hay.data

/-- The marker `complete_vision_analysis.py` looks for to decide whether an
image was already analyzed. -/
def visionMarker : String := "Vision API content extraction"

/-- `complete_vision_analysis.py::main` remaining-images query: images whose
`text_content` is NULL or does not contain the marker (`ORDER BY uri`). -/
def visionRemaining (corpus : List Record) : List String :=
  orderBy ((corpus.filter (fun r =>
      r.modality == "image" &&
        (match r.text_content with
         | none => true
         | some t => !(strHasSub t visionMarker)))).map (·.uri))

/-- The UPDATE issued per analyzed image
(`complete_vision_analysis.py::analyze_and_update_image` and
`update_all_images_vision.py::update_individual`):
`SET text_content = @text WHERE uri = @uri` — no modality filter, so every
record with that uri is updated. -/
def update_text_at (uri text : String) (corpus : List Record) : List Record :=
  corpus.map (fun r => if r.uri == uri then { r with text_content := some text } else r)

/-- `complete_vision_analysis.py::main` driver: for each remaining image uri
run `analyze_and_update_image`; on success (the adapter returned a
description) the record is updated and the success count incremented; a
per-image failure is caught inside `analyze_and_update_image` (its `except`
returns `False`) and the loop continues with the next uri. -/
def complete_vision_main (extract : String → Option String)
    (corpus : List Record) : List Record × Nat :=
  (visionRemaining corpus).foldl
    (fun acc u =>
      match extract u with
      | some t => (update_text_at u t acc.1, acc.2 + 1)
      | none => (acc.1, acc.2))
    (corpus, 0)

/-- One output row of `grepctl.py::index_verify`. -/
structure VerifyRow where
  modality : String
  total_docs : Nat
  valid_embeddings : Nat
  null_embeddings : Nat
  empty_embeddings : Nat
deriving DecidableEq

/-- `grepctl.py::index_verify` query: per modality, `COUNT(*)`,
`SUM(CASE WHEN ARRAY_LENGTH(embedding) = 768 ...)`,
`SUM(CASE WHEN embedding IS NULL ...)`,
`SUM(CASE WHEN ARRAY_LENGTH(embedding) = 0 ...)`,
`GROUP BY modality ORDER BY modality`. -/
def index_verify (corpus : List Record) : List VerifyRow :=
  (orderBy (corpus.map (·.modality)).dedup).map (fun m =>
    let rows := corpus.filter (fun r => r.modality == m)
    { modality := m
      total_docs := rows.length
      valid_embeddings := (rows.filter (fun r => arrayLengthEq r.embedding 768)).length
      null_embeddings := (rows.filter (fun r => r.embedding.isNone)).length
      empty_embeddings := (rows.filter (fun r => arrayLengthEq r.embedding 0)).length })

/-- Whether a record passes the optional `--modality` filter of
`grepctl.py::fix_stuck` (absent filter matches everything). -/
def matchesModality (mf : Option String) (r : Record) : Bool :=
  match mf with
  | some m => r.modality == m
  | none => true

/-- Phase one of `grepctl.py::fix_stuck`: `UPDATE search_corpus SET
embedding = NULL WHERE ARRAY_LENGTH(embedding) = 0 [AND modality = m]`. -/
def clearEmptyEmbeddings (mf : Option String) (corpus : List Record) : List Record :=
  corpus.map (fun r =>
    if arrayLengthEq r.embedding 0 && matchesModality mf r then
      { r with embedding := none }
    else r)

/-- Modelled from the spec: the embedding-update script
`src/grepctl/scripts/fix_embeddings.py` invoked by `grepctl.py` (`index
update`, `fix embeddings`, `fix stuck`) is not present under `src/`.  Per
§4.3/§4.5 of the spec it generates an embedding from `canonical_text` for
records that lack one and never calls the embedder on a record whose text
is absent ("Must reject/refuse to call when `text` is empty or null"). -/
def update_embeddings (embed : String → List Int) (corpus : List Record) : List Record :=
  corpus.map (fun r =>
    match r.text_content with
    | some t => if r.embedding.isNone then { r with embedding := some (embed t) } else r
    | none => r)

/-- `grepctl.py::fix_stuck`: clear empty embeddings first, then run the
re-embedding script. -/
def fix_stuck (embed : String → List Int) (mf : Option String)
    (corpus : List Record) : List Record :=
  update_embeddings embed (clearEmptyEmbeddings mf corpus)

/-- A parsed JSON value (`json.loads` output).  JSON numbers are modelled as
integers: no modelled operation distinguishes floats beyond their printed
form, and every concrete value used below is an integer. -/
inductive Json where
  | str (s : String)
  | int (n : Int)
  | bool (b : Bool)
  | null
  | arr (xs : List Json)
  | obj (kvs : List (String × Json))

/-- Python `type(x).__name__` for a parsed JSON value. -/
def pyTypeName : Json → String
  | .str _ => "str"
  | .int _ => "int"
  | .bool _ => "bool"
  | .null => "NoneType"
  | .arr _ => "list"
  | .obj _ => "dict"

/-- Lower-case hex digit. -/
def hexDigit (n : Nat) : Char :=
  if n < 10 then Char.ofNat ('0'.toNat + n) else Char.ofNat ('a'.toNat + (n - 10))

/-- Four lower-case hex digits (for `\uXXXX` escapes). -/
def hex4 (n : Nat) : String :=
  String.mk [hexDigit (n / 4096 % 16), hexDigit (n / 256 % 16),
             hexDigit (n / 16 % 16), hexDigit (n % 16)]

/-- `json.dumps` escaping of one character inside a string literal
(defaults: `ensure_ascii=True`, so control and non-ASCII characters become
`\uXXXX`). -/
def jsonEscapeChar (c : Char) : String :=
  if c = '"' then "\\\""
  else if c = '\\' then "\\\\"
  else if c = '\n' then "\\n"
  else if c = '\t' then "\\t"
  else if c = '\r' then "\\r"
  else if c = (Char.ofNat 8) then "\\b"
  else if c = (Char.ofNat 12) then "\\f"
  else if c.toNat < 32 || c.toNat ≥ 127 then "\\u" ++ hex4 c.toNat
  else String.mk [c]

/-- A `json.dumps` string literal. -/
def jsonQuote (s : String) : String :=
  "\"" ++ String.join (s.data.map jsonEscapeChar) ++ "\""

mutual

/-- Python `json.dumps(data)` with default separators `(', ', ': ')`. -/
def dumps : Json → String
  | .str s => jsonQuote s
  | .int n => toString n
  | .bool b => if b then "true" else "false"
  | .null => "null"
  | .arr xs => "[" ++ dumpsList xs ++ "]"
  | .obj kvs => "\x7b" ++ dumpsObjList kvs ++ "\x7d"

/-- `', '.join` of the serialized array items. -/
def dumpsList : List Json → String
  | [] => ""
  | [x] => dumps x
  | x :: y :: rest => dumps x ++ ", " ++ dumpsList (y :: rest)

/-- `', '.join` of the serialized `"key": value` members. -/
def dumpsObjList : List (String × Json) → String
  | [] => ""
  | [kv] => jsonQuote kv.1 ++ ": " ++ dumps kv.2
  | kv :: kv2 :: rest => jsonQuote kv.1 ++ ": " ++ dumps kv.2 ++ ", " ++ dumpsObjList (kv2 :: rest)

end

/-- `n` spaces. -/
def spaces (n : Nat) : String :=
  String.mk (List.replicate n ' ')

mutual

/-- Python `json.dumps(data, indent=2)` rendered at nesting level `lvl`
(members of a level-`lvl` container are indented by `2 * (lvl + 1)` spaces;
item separator becomes `',\n' + indent`; empty containers stay `[]`/`{}`). -/
def dumpsIndentAt (lvl : Nat) : Json → String
  | .str s => jsonQuote s
  | .int n => toString n
  | .bool b => if b then "true" else "false"
  | .null => "null"
  | .arr [] => "[]"
  | .arr (x :: xs) =>
      "[\n" ++ spaces (2 * (lvl + 1)) ++ dumpsIndentList (lvl + 1) (x :: xs) ++
        "\n" ++ spaces (2 * lvl) ++ "]"
  | .obj [] => "\x7b\x7d"
  | .obj (kv :: kvs) =>
      "\x7b\n" ++ spaces (2 * (lvl + 1)) ++ dumpsIndentObjList (lvl + 1) (kv :: kvs) ++
        "\n" ++ spaces (2 * lvl) ++ "\x7d"

/-- Array items at level `lvl`, separated by `',\n' + 2*lvl spaces`. -/
def dumpsIndentList (lvl : Nat) : List Json → String
  | [] => ""
  | [x] => dumpsIndentAt lvl x
  | x :: y :: rest =>
      dumpsIndentAt lvl x ++ ",\n" ++ spaces (2 * lvl) ++ dumpsIndentList lvl (y :: rest)

/-- Object members at level `lvl`. -/
def dumpsIndentObjList (lvl : Nat) : List (String × Json) → String
  | [] => ""
  | [kv] => jsonQuote kv.1 ++ ": " ++ dumpsIndentAt lvl kv.2
  | kv :: kv2 :: rest =>
      jsonQuote kv.1 ++ ": " ++ dumpsIndentAt lvl kv.2 ++ ",\n" ++ spaces (2 * lvl) ++
        dumpsIndentObjList lvl (kv2 :: rest)

end

/-- `json.dumps(data, indent=2)`. -/
def dumpsIndent (data : Json) : String :=
  dumpsIndentAt 0 data

/-- Python `repr` escaping of one character inside a single-quoted string
literal (backslash, quote, and the common control characters; other
non-printable ASCII becomes `\xHH`).  Python's preference for double quotes
when the string contains a single quote but no double quote is not
modelled; no concrete value below contains a quote. -/
def pyReprChar (c : Char) : String :=
  if c = '\\' then "\\\\"
  else if c.toNat = 39 then String.mk ['\\', Char.ofNat 39]
  else if c = '\n' then "\\n"
  else if c = '\t' then "\\t"
  else if c = '\r' then "\\r"
  else if c.toNat < 32 || c.toNat = 127 then
    "\\x" ++ String.mk [hexDigit (c.toNat / 16 % 16), hexDigit (c.toNat % 16)]
  else String.mk [c]

/-- Python `repr` of a string. -/
def pyReprStr (s : String) : String :=
  String.mk [Char.ofNat 39] ++ String.join (s.data.map pyReprChar) ++ String.mk [Char.ofNat 39]

mutual

/-- Python `repr` of a parsed JSON value. -/
def pyRepr : Json → String
  | .str s => pyReprStr s
  | .int n => toString n
  | .bool b => if b then "True" else "False"
  | .null => "None"
  | .arr xs => "[" ++ pyReprList xs ++ "]"
  | .obj kvs => "\x7b" ++ pyReprObjList kvs ++ "\x7d"

/-- `', '.join` of the item reprs. -/
def pyReprList : List Json → String
  | [] => ""
  | [x] => pyRepr x
  | x :: y :: rest => pyRepr x ++ ", " ++ pyReprList (y :: rest)

/-- `', '.join` of the `key: value` member reprs. -/
def pyReprObjList : List (String × Json) → String
  | [] => ""
  | [kv] => pyReprStr kv.1 ++ ": " ++ pyRepr kv.2
  | kv :: kv2 :: rest =>
      pyReprStr kv.1 ++ ": " ++ pyRepr kv.2 ++ ", " ++ pyReprObjList (kv2 :: rest)

end

/-- Python `str(x)` for a parsed JSON value (identity on strings, `repr`
otherwise — which agrees with `str` on ints, bools, `None`, lists and
dicts). -/
def pyStr : Json → String
  | .str s => s
  | v => pyRepr v

/-- `ingest_json_csv.py::get_json_structure`: a one-level structural summary
(despite its `max_depth`/`current_depth` parameters the function never
recurses). -/
def get_json_structure (obj : Json) (maxDepth currentDepth : Nat) : String :=
  if currentDepth ≥ maxDepth then "..."
  else
    match obj with
    | .obj kvs =>
        if kvs.isEmpty then "\x7b\x7d"
        else
          let keys := (kvs.map Prod.fst).take 5
          let keys := if kvs.length > 5 then keys ++ ["..."] else keys
          "\x7b" ++ pyJoin ", " keys ++ "\x7d"
    | .arr [] => "[]"
    | .arr (x :: xs) =>
        "[" ++ pyTypeName x ++ "...] (" ++ toString (x :: xs).length ++ " items)"
    | other => pyTypeName other

/-- One iteration of the `ingest_json_csv.py::process_json_file` sample-value
loop (lines 53-59): scalar values are printed truncated to 100 characters,
non-empty lists and dicts get a structural note, `None` values and empty
lists produce no line. -/
def jsonSampleLine (key : String) : Json → Option String
  | .str s => some ("  " ++ key ++ ": " ++ pyTake 100 (pyStr (.str s)))
  | .int n => some ("  " ++ key ++ ": " ++ pyTake 100 (pyStr (.int n)))
  | .bool b => some ("  " ++ key ++ ": " ++ pyTake 100 (pyStr (.bool b)))
  | .arr (x :: xs) =>
      some ("  " ++ key ++ ": [" ++ pyTypeName x ++ "...] (" ++
        toString (x :: xs).length ++ " items)")
  | .arr [] => none
  | .obj kvs => some ("  " ++ key ++ ": \x7b...\x7d (" ++ toString kvs.length ++ " keys)")
  | .null => none

/-- One iteration of the `process_json_file` array-sample loop
(lines 68-73). -/
def arrItemLine (i : Nat) (item : Json) : String :=
  match item with
  | .obj kvs =>
      "  [" ++ toString i ++ "]: \x7b" ++ pyJoin ", " ((kvs.map Prod.fst).take 5) ++ "...\x7d"
  | _ => "  [" ++ toString i ++ "]: " ++ pyTake 100 (pyStr item)

/-- The content lines `process_json_file` adds for a dict or array root
(lines 48-73); scalars add nothing. -/
def jsonBodyParts : Json → List String
  | .obj kvs =>
      ["Root keys: " ++ pyJoin ", " ((kvs.map Prod.fst).take 10), "\nSample content:"] ++
        (kvs.take 20).filterMap (fun kv => jsonSampleLine kv.1 kv.2)
  | .arr [] => ["Array with 0 items"]
  | .arr (x :: xs) =>
      ["Array with " ++ toString (x :: xs).length ++ " items",
       "Item type: " ++ pyTypeName x, "\nSample items:"] ++
        (((x :: xs).take 5).enum.map (fun p => arrItemLine p.1 p.2))
  | _ => []

/-- `process_json_file` lines 75-79: the full JSON dump truncated to 5000
characters; the `...[truncated]` suffix is appended when the truncated
string is shorter than the *compact* (unindented) dump. -/
def jsonPayload (data : Json) : String :=
  if (pyTake 5000 (dumpsIndent data)).length < (dumps data).length then
    pyTake 5000 (dumpsIndent data) ++ "\n... [truncated]"
  else pyTake 5000 (dumpsIndent data)

/-- All `content_parts` of `process_json_file` before the `Indexed:`
timestamp line. -/
def process_json_parts (uri : String) (data : Json) : List String :=
  ["JSON File: " ++ lastComponent uri,
   "Location: " ++ uri,
   "Structure: " ++ get_json_structure data 3 0,
   ""] ++
    jsonBodyParts data ++
    ["\nJSON Data:\n" ++ jsonPayload data,
     "",
     "Analysis: JSON content extracted for semantic search"]

/-- `ingest_json_csv.py::process_json_file` on already-downloaded, parsed
content: `data` is `json.loads` of the blob, `now` is the
`time.strftime('%Y-%m-%d %H:%M:%S UTC', time.gmtime())` string at the
moment of the run.  (The GCS download and the `except` wrapper live in the
caller model; this is the successful path.) -/
def process_json_file (uri : String) (data : Json) (now : String) : String :=
  pyJoin "\n" (process_json_parts uri data ++ ["Indexed: " ++ now])

/-- `ingest_json_csv.py::process_csv_file` lines 153-157: the raw CSV
preview, truncated to 3000 characters with the `...[truncated]` suffix
exactly when the content was longer. -/
def csvPreview (csv_content : String) : String :=
  if (pyTake 3000 csv_content).length < csv_content.length then
    pyTake 3000 csv_content ++ "\n... [truncated]"
  else pyTake 3000 csv_content

/-- Empty arrays nested `n` levels deep:
`nestedArr 2` is the parse of `[[[]]]`. -/
def nestedArr : Nat → Json
  | 0 => .arr []
  | n + 1 => .arr [nestedArr n]

/-- A one-entry JSON object whose single key is `n` copies of `K`. -/
def bigKeyObj (n : Nat) : Json :=
  .obj [(String.mk (List.replicate n 'K'), .int 1)]

/-- The per-image result dict of
`update_all_images_vision.py::analyze_image`. -/
structure VisionResult where
  uri : String
  text_content : Option String
  success : Bool
deriving DecidableEq

/-- Python truthiness of the `text_content` field (`None` and the empty
string are falsy). -/
def pyTruthy (t : Option String) : Bool :=
  match t with
  | some s => !(s == "")
  | none => false

/-- `update_all_images_vision.py::update_batch_in_bigquery`, line 180:
`[r for r in results if r['success'] and r['text_content']]`. -/
def successful_results (results : List VisionResult) : List VisionResult :=
  results.filter (fun r => r.success && pyTruthy r.text_content)

/-- `update_all_images_vision.py::update_batch_in_bigquery`: if there are no
successful results, do nothing; otherwise attempt one combined UPDATE of all
successful results (`batchOk` tells whether that statement succeeds); when
it fails, fall back to `update_individual` per successful result, each of
which may itself fail (`indivOk`) without aborting the remaining updates
(`update_individual` catches its own exception). -/
def update_batch_in_bigquery (batchOk : Bool) (indivOk : String → Bool)
    (results : List VisionResult) (corpus : List Record) : List Record :=
  let successful := successful_results results
  if successful.isEmpty then corpus
  else if batchOk then
    successful.foldl (fun c r => update_text_at r.uri (r.text_content.getD "") c) corpus
  else
    successful.foldl (fun c r =>
      if indivOk r.uri then update_text_at r.uri (r.text_content.getD "") c else c) corpus

/-- The two persisted tables the modelled runs touch: `documents` (written
by `ingest_simple_data`, read by `create_search_corpus`) and
`search_corpus` (written by everything else). -/
structure DB where
  documents : List Record
  search_corpus : List Record
deriving DecidableEq

/-- One ingestion / maintenance run over the fixed external object tables.
The extraction and embedding callbacks vary per run (their outputs include
the run timestamp), so each step carries its own. -/
inductive Step where
  | text
  | markdown
  | corpusRebuild
  | jsonCsv (extractJson extractCsv : String → Option String)
  | vision (extract : String → Option String)
  | stuckFix (embed : String → List Int) (mf : Option String)
  | indexUpdate (embed : String → List Int)

/-- Effect of one run on the database. -/
def Step.apply (objText objMarkdown : List ObjRow) (objJson objCsv : List String) :
    Step → DB → DB
  | .text, db => { db with documents := ingest_text objText db.documents }
  | .markdown, db => { db with documents := ingest_markdown objMarkdown db.documents }
  | .corpusRebuild, db => { db with search_corpus := create_search_corpus db.documents }
  | .jsonCsv ej ec, db =>
      { db with search_corpus := ingest_json_csv_main objJson objCsv ej ec db.search_corpus }
  | .vision ex, db =>
      { db with search_corpus := (complete_vision_main ex db.search_corpus).1 }
  | .stuckFix embed mf, db =>
      { db with search_corpus := fix_stuck embed mf db.search_corpus }
  | .indexUpdate embed, db =>
      { db with search_corpus := update_embeddings embed db.search_corpus }

/-- A sequence of runs. -/
def runSteps (objText objMarkdown : List ObjRow) (objJson objCsv : List String)
    (steps : List Step) (db : DB) : DB :=
  steps.foldl (fun d s => s.apply objText objMarkdown objJson objCsv d) db

/-- The `(uri, modality)` key of every record, in table order. -/
def keyPairs (c : List Record) : List (String × String) :=
  c.map (fun r => (r.uri, r.modality))

/-- At most one record per `(uri, modality)` key. -/
def keyNodup (c : List Record) : Prop :=
  (keyPairs c).Nodup

/-- Every text-modality record that did not come from the markdown pass has
a uri outside `obj_markdown` (true of the records `ingest_text` creates
because the `text/` and `markdown/` GCS prefixes hold different objects). -/
def mdProvenance (objMarkdown : List ObjRow) (documents : List Record) : Prop :=
  ∀ r ∈ documents, r.modality = "text" → r.source ≠ some "markdown" →
    r.uri ∉ objMarkdown.map ObjRow.uri

/-- The uniqueness invariant of both tables. -/
def Inv (objMarkdown : List ObjRow) (db : DB) : Prop :=
  keyNodup db.documents ∧ keyNodup db.search_corpus ∧
    mdProvenance objMarkdown db.documents

/-- No record has an embedding while its canonical text is absent. -/
def embedInv (c : List Record) : Prop :=
  ∀ r ∈ c, r.text_content = none → r.embedding = none

/-- `embedInv` for both tables. -/
def EmbedInv (db : DB) : Prop :=
  embedInv db.documents ∧ embedInv db.search_corpus

/-- A small demonstration corpus for the verify witness: three image
records (one valid 768-vector, one NULL, one empty) and one text record. -/
def verifyDemoCorpus : List Record :=
  [{ uri := "gs://b/images/a.png", modality := "image", source := none,
     text_content := some "cat", embedding := some (List.replicate 768 1) },
   { uri := "gs://b/images/b.png", modality := "image", source := none,
     text_content := some "dog", embedding := none },
   { uri := "gs://b/images/c.png", modality := "image", source := none,
     text_content := some "owl", embedding := some [] },
   { uri := "gs://b/text/t.txt", modality := "text", source := some "file",
     text_content := some "hi", embedding := none }]
/-- The batch of analyzed images for the fallback witness: two successes
and one failed analysis. -/
def demoResults : List VisionResult :=
  [{ uri := "gs://b/images/a.png", text_content := some "Image File: a", success := true },
   { uri := "gs://b/images/b.png", text_content := some "Image File: b", success := true },
   { uri := "gs://b/images/c.png", text_content := none, success := false }]

/-- The corpus the fallback witness updates. -/
def demoVisionCorpus : List Record :=
  [{ uri := "gs://b/images/a.png", modality := "image", source := none,
     text_content := some "old-a", embedding := none },
   { uri := "gs://b/images/b.png", modality := "image", source := none,
     text_content := some "old-b", embedding := none },
   { uri := "gs://b/images/c.png", modality := "image", source := none,
     text_content := some "old-c", embedding := none }]

theorem keyPairs_append (a b : List Record) :
    keyPairs (a ++ b) = keyPairs a ++ keyPairs b := by
  simp [keyPairs]

theorem keyPairs_map_preserving (f : Record → Record)
    (h : ∀ r, (f r).uri = r.uri ∧ (f r).modality = r.modality) (c : List Record) :
    keyPairs (c.map f) = keyPairs c := by
  induction c with
  | nil => rfl
  | cons r t ih =>
    simp only [keyPairs, List.map_cons] at ih ⊢
    rw [ih, (h r).1, (h r).2]

theorem keyPairs_update_text_at (u t : String) (c : List Record) :
    keyPairs (update_text_at u t c) = keyPairs c :=
  keyPairs_map_preserving _ (fun r => by split <;> simp) c

theorem keyPairs_clearEmptyEmbeddings (mf : Option String) (c : List Record) :
    keyPairs (clearEmptyEmbeddings mf c) = keyPairs c :=
  keyPairs_map_preserving _ (fun r => by split <;> simp) c

theorem keyPairs_update_embeddings (embed : String → List Int) (c : List Record) :
    keyPairs (update_embeddings embed c) = keyPairs c :=
  keyPairs_map_preserving _
    (fun r => by
      cases r.text_content
      · simp
      · simp
        split <;> simp) c

theorem keyPairs_complete_vision_main (ex : String → Option String) (c : List Record) :
    keyPairs (complete_vision_main ex c).1 = keyPairs c := by
  unfold complete_vision_main
  generalize visionRemaining c = us
  suffices h : ∀ (us : List String) (acc : List Record × Nat),
      keyPairs (us.foldl (fun acc u =>
        match ex u with
        | some t => (update_text_at u t acc.1, acc.2 + 1)
        | none => (acc.1, acc.2)) acc).1 = keyPairs acc.1 by
    exact h us (c, 0)
  intro us
  induction us with
  | nil => intro acc; rfl
  | cons u t ih =>
    intro acc
    cases h : ex u with
    | none => simpa [h] using ih acc
    | some v => simp only [List.foldl_cons, h]; rw [ih]; exact keyPairs_update_text_at ..

theorem process_uris_map_uri_sublist (e : String → Option String) (m : String)
    (us : List String) : ((process_uris e m us).map (·.uri)).Sublist us := by
  induction us with
  | nil => simp [process_uris]
  | cons u t ih =>
    simp only [process_uris, List.filterMap_cons] at ih ⊢
    cases h : e u with
    | none => exact ih.cons u
    | some v => simpa [mkIngestDoc] using ih.cons₂ u

theorem process_uris_modality (e : String → Option String) (m : String)
    (us : List String) : ∀ r ∈ process_uris e m us, r.modality = m := by
  intro r hr
  obtain ⟨u, _, hu⟩ := List.mem_filterMap.mp hr
  cases h : e u with
  | none => rw [h] at hu; cases hu
  | some v => rw [h] at hu; cases hu; rfl

theorem keyPairs_process_uris (e : String → Option String) (m : String)
    (us : List String) :
    keyPairs (process_uris e m us) =
      ((process_uris e m us).map (·.uri)).map (fun u => (u, m)) := by
  simp only [keyPairs, List.map_map]
  induction us with
  | nil => rfl
  | cons u t ih =>
    simp only [process_uris, List.filterMap_cons] at ih ⊢
    cases h : e u with
    | none => exact ih
    | some v => simpa [mkIngestDoc] using ih

theorem orderBy_perm (l : List String) : (orderBy l).Perm l :=
  @List.perm_insertionSort String (fun a b => a ≤ b) decStrLE l

theorem orderBy_sorted (l : List String) : List.Sorted (· ≤ ·) (orderBy l) :=
  @List.sorted_insertionSort String (fun a b => a ≤ b) decStrLE
    inferInstance inferInstance l

theorem pendingUris_nodup (objTable existing : List String) :
    (pendingUris objTable existing).Nodup :=
  ((orderBy_perm _).symm.nodup (List.nodup_dedup _)).filter _

theorem pendingUris_sorted (objTable existing : List String) :
    List.Sorted (· ≤ ·) (pendingUris objTable existing) :=
  (orderBy_sorted _).filter _

theorem pendingUris_not_existing (objTable existing : List String) :
    ∀ u ∈ pendingUris objTable existing, u ∉ existing := by
  intro u hu
  have := (List.mem_filter.mp hu).2
  simpa using this

theorem mem_jsonCsvExisting (c : List Record) (u : String) :
    u ∈ jsonCsvExisting c ↔
      ∃ r ∈ c, r.uri = u ∧ (r.modality = "json" ∨ r.modality = "csv") := by
  simp only [jsonCsvExisting, List.mem_map, List.mem_filter]
  constructor
  · rintro ⟨r, ⟨hr, hmod⟩, rfl⟩
    exact ⟨r, hr, rfl, by simpa using hmod⟩
  · rintro ⟨r, hr, rfl, hmod⟩
    exact ⟨r, ⟨hr, by simpa using hmod⟩, rfl⟩

theorem mem_keyPairs {c : List Record} {p : String × String} :
    p ∈ keyPairs c ↔ ∃ r ∈ c, r.uri = p.1 ∧ r.modality = p.2 := by
  simp only [keyPairs, List.mem_map]
  constructor
  · rintro ⟨r, hr, rfl⟩
    exact ⟨r, hr, rfl, rfl⟩
  · rintro ⟨r, hr, h1, h2⟩
    exact ⟨r, hr, by rw [h1, h2]⟩

theorem keyNodup_append {docs new : List Record} (h : keyNodup docs)
    (hnew : keyNodup new)
    (hdisj : ∀ r ∈ new, (r.uri, r.modality) ∉ keyPairs docs) :
    keyNodup (docs ++ new) := by
  unfold keyNodup
  rw [keyPairs_append, List.nodup_append]
  refine ⟨h, hnew, fun p hp hq => ?_⟩
  obtain ⟨r, hr, h1, h2⟩ := mem_keyPairs.mp hq
  exact hdisj r hr (by rw [h1, h2]; exact (Prod.mk.eta (p := p)) ▸ hp)

theorem keyNodup_of_uris_nodup {new : List Record}
    (hu : (new.map (·.uri)).Nodup) : keyNodup new := by
  induction new with
  | nil => exact List.nodup_nil
  | cons r t ih =>
    simp only [List.map_cons, List.nodup_cons] at hu
    unfold keyNodup keyPairs
    rw [List.map_cons, List.nodup_cons]
    refine ⟨fun hmem => ?_, ih hu.2⟩
    obtain ⟨r', hr', h1, _⟩ := mem_keyPairs.mp hmem
    exact hu.1 (List.mem_map.mpr ⟨r', hr', h1⟩)

theorem ingest_text_keyNodup (objText : List ObjRow) (docs : List Record)
    (hn : (objText.map ObjRow.uri).Nodup) (h : keyNodup docs) :
    keyNodup (ingest_text objText docs) := by
  unfold ingest_text
  refine keyNodup_append h (keyNodup_of_uris_nodup ?_) ?_
  · rw [List.map_map]
    exact ((List.filter_sublist _).map _).nodup hn
  · intro r hr hmem
    obtain ⟨o, ho, rfl⟩ := List.mem_map.mp hr
    obtain ⟨r', hr', h1, h2⟩ := mem_keyPairs.mp hmem
    have hcond := (List.mem_filter.mp ho).2
    simp only [Bool.not_eq_true', List.any_eq_false] at hcond
    have := hcond r' hr'
    simp only [Bool.and_eq_true, beq_iff_eq] at this
    exact this ⟨h2, h1⟩

theorem ingest_markdown_keyNodup (objMarkdown : List ObjRow) (docs : List Record)
    (hn : (objMarkdown.map ObjRow.uri).Nodup) (h : keyNodup docs)
    (hprov : mdProvenance objMarkdown docs) :
    keyNodup (ingest_markdown objMarkdown docs) := by
  unfold ingest_markdown
  refine keyNodup_append h (keyNodup_of_uris_nodup ?_) ?_
  · rw [List.map_map]
    exact ((List.filter_sublist _).map _).nodup hn
  · intro r hr hmem
    obtain ⟨o, ho, rfl⟩ := List.mem_map.mp hr
    obtain ⟨r', hr', h1, h2⟩ := mem_keyPairs.mp hmem
    have hcond := (List.mem_filter.mp ho).2
    simp only [Bool.not_eq_true', List.any_eq_false] at hcond
    by_cases hsrc : r'.source = some "markdown"
    · have := hcond r' hr'
      simp only [Bool.and_eq_true, beq_iff_eq] at this
      exact this ⟨hsrc, h1⟩
    · exact hprov r' hr' h2 hsrc
        (List.mem_map.mpr ⟨o, (List.mem_filter.mp ho).1, h1.symm⟩)

theorem create_search_corpus_keyNodup (docs : List Record) (h : keyNodup docs) :
    keyNodup (create_search_corpus docs) := by
  unfold create_search_corpus keyNodup
  rw [keyPairs_map_preserving (fun r => { r with embedding := none })
    (fun r => ⟨rfl, rfl⟩)]
  exact ((List.filter_sublist _).map _).nodup h

theorem process_uris_uri_mem {e : String → Option String} {m : String}
    {us : List String} {r : Record} (hr : r ∈ process_uris e m us) : r.uri ∈ us :=
  (process_uris_map_uri_sublist e m us).subset (List.mem_map_of_mem _ hr)

theorem process_take_pending_not_existing (e : String → Option String)
    (m : String) (objTable existing : List String) :
    ∀ r ∈ process_uris e m ((pendingUris objTable existing).take 50),
      r.uri ∉ existing := by
  intro r hr
  exact pendingUris_not_existing _ _ _
    (List.take_subset _ _ (process_uris_uri_mem hr))

theorem ingest_json_csv_main_keyNodup (objJson objCsv : List String)
    (extractJson extractCsv : String → Option String) (c : List Record)
    (h : keyNodup c) :
    keyNodup (ingest_json_csv_main objJson objCsv extractJson extractCsv c) := by
  unfold ingest_json_csv_main
  refine keyNodup_append h ?_ ?_
  · refine keyNodup_append ?_ ?_ ?_
    · exact keyNodup_of_uris_nodup ((process_uris_map_uri_sublist _ _ _).nodup
        ((List.take_sublist _ _).nodup (pendingUris_nodup _ _)))
    · exact keyNodup_of_uris_nodup ((process_uris_map_uri_sublist _ _ _).nodup
        ((List.take_sublist _ _).nodup (pendingUris_nodup _ _)))
    · intro r hr hmem
      obtain ⟨r', hr', _, h2⟩ := mem_keyPairs.mp hmem
      have hj := process_uris_modality _ _ _ r' hr'
      have hc := process_uris_modality _ _ _ r hr
      exact absurd (hj.symm.trans (h2.trans hc)) (by decide)
  · intro r hr hmem
    obtain ⟨r', hr', h1, h2⟩ := mem_keyPairs.mp hmem
    rcases List.mem_append.mp hr with hjr | hcr
    · exact process_take_pending_not_existing _ _ _ _ r hjr
        ((mem_jsonCsvExisting c r.uri).mpr
          ⟨r', hr', h1, Or.inl (h2.trans (process_uris_modality _ _ _ r hjr))⟩)
    · exact process_take_pending_not_existing _ _ _ _ r hcr
        ((mem_jsonCsvExisting c r.uri).mpr
          ⟨r', hr', h1, Or.inr (h2.trans (process_uris_modality _ _ _ r hcr))⟩)

theorem ingest_text_mdProvenance (objText objMarkdown : List ObjRow)
    (docs : List Record)
    (hD : ∀ u ∈ objText.map ObjRow.uri, u ∉ objMarkdown.map ObjRow.uri)
    (h : mdProvenance objMarkdown docs) :
    mdProvenance objMarkdown (ingest_text objText docs) := by
  intro r hr hmod hsrc
  rcases List.mem_append.mp hr with hold | hnew
  · exact h r hold hmod hsrc
  · obtain ⟨o, ho, rfl⟩ := List.mem_map.mp hnew
    exact hD o.uri (List.mem_map.mpr ⟨o, (List.mem_filter.mp ho).1, rfl⟩)

theorem ingest_markdown_mdProvenance (objMarkdown : List ObjRow)
    (docs : List Record) (h : mdProvenance objMarkdown docs) :
    mdProvenance objMarkdown (ingest_markdown objMarkdown docs) := by
  intro r hr hmod hsrc
  rcases List.mem_append.mp hr with hold | hnew
  · exact h r hold hmod hsrc
  · obtain ⟨o, _, rfl⟩ := List.mem_map.mp hnew
    exact absurd rfl hsrc

theorem step_preserves_Inv (objText objMarkdown : List ObjRow)
    (objJson objCsv : List String)
    (hT : (objText.map ObjRow.uri).Nodup)
    (hM : (objMarkdown.map ObjRow.uri).Nodup)
    (hD : ∀ u ∈ objText.map ObjRow.uri, u ∉ objMarkdown.map ObjRow.uri)
    (s : Step) (db : DB) (h : Inv objMarkdown db) :
    Inv objMarkdown (s.apply objText objMarkdown objJson objCsv db) := by
  unfold Inv at h ⊢
  obtain ⟨h1, h2, h3⟩ := h
  cases s with
  | text =>
    exact ⟨ingest_text_keyNodup _ _ hT h1, h2,
      ingest_text_mdProvenance _ _ _ hD h3⟩
  | markdown =>
    exact ⟨ingest_markdown_keyNodup _ _ hM h1 h3, h2,
      ingest_markdown_mdProvenance _ _ h3⟩
  | corpusRebuild => exact ⟨h1, create_search_corpus_keyNodup _ h1, h3⟩
  | jsonCsv ej ec => exact ⟨h1, ingest_json_csv_main_keyNodup _ _ _ _ _ h2, h3⟩
  | vision ex =>
    refine ⟨h1, ?_, h3⟩
    show keyNodup (complete_vision_main ex db.search_corpus).1
    unfold keyNodup
    rw [keyPairs_complete_vision_main]
    exact h2
  | stuckFix embed mf =>
    refine ⟨h1, ?_, h3⟩
    show keyNodup (fix_stuck embed mf db.search_corpus)
    unfold keyNodup fix_stuck
    rw [keyPairs_update_embeddings, keyPairs_clearEmptyEmbeddings]
    exact h2
  | indexUpdate embed =>
    refine ⟨h1, ?_, h3⟩
    show keyNodup (update_embeddings embed db.search_corpus)
    unfold keyNodup
    rw [keyPairs_update_embeddings]
    exact h2

theorem runSteps_Inv (objText objMarkdown : List ObjRow)
    (objJson objCsv : List String)
    (hT : (objText.map ObjRow.uri).Nodup)
    (hM : (objMarkdown.map ObjRow.uri).Nodup)
    (hD : ∀ u ∈ objText.map ObjRow.uri, u ∉ objMarkdown.map ObjRow.uri)
    (steps : List Step) (db : DB) (h : Inv objMarkdown db) :
    Inv objMarkdown (runSteps objText objMarkdown objJson objCsv steps db) := by
  induction steps generalizing db with
  | nil => exact h
  | cons s t ih =>
    exact ih _ (step_preserves_Inv _ _ _ _ hT hM hD s db h)

theorem keyNodup_countP_le_one {c : List Record} (h : keyNodup c) (u m : String) :
    c.countP (fun r => r.uri == u && r.modality == m) ≤ 1 := by
  induction c with
  | nil => simp
  | cons r t ih =>
    have hpairs : keyPairs (r :: t) = (r.uri, r.modality) :: keyPairs t := rfl
    have hc := h
    unfold keyNodup at hc
    rw [hpairs, List.nodup_cons] at hc
    by_cases hp : (r.uri == u && r.modality == m) = true
    · have hpe := hp
      simp only [Bool.and_eq_true, beq_iff_eq] at hpe
      have hz : t.countP (fun r => r.uri == u && r.modality == m) = 0 := by
        rw [List.countP_eq_zero]
        intro r' hr' hp'
        simp only [Bool.and_eq_true, beq_iff_eq] at hp'
        exact hc.1 (mem_keyPairs.mpr
          ⟨r', hr', hp'.1.trans hpe.1.symm, hp'.2.trans hpe.2.symm⟩)
      simp [List.countP_cons, hp, hz]
    · simp only [Bool.not_eq_true] at hp
      have h2 := ih hc.2
      simp only [List.countP_cons, hp, if_false, Bool.false_eq_true, add_zero]
      exact h2

/-- **C1.** After any sequence of ingestion / maintenance runs over fixed
external object tables (with distinct uris per table and disjoint
text/markdown uri sets, as the per-modality GCS prefixes guarantee),
at most one `search_corpus` record carries any given `(uri, modality)`
pair: every ingestion pass first computes the uris already present and
inserts only documents outside that set, so re-running ingestion never
duplicates a record. -/
theorem uri_modality_unique_after_runs
    (objText objMarkdown : List ObjRow) (objJson objCsv : List String)
    (hT : (objText.map ObjRow.uri).Nodup)
    (hM : (objMarkdown.map ObjRow.uri).Nodup)
    (hD : ∀ u ∈ objText.map ObjRow.uri, u ∉ objMarkdown.map ObjRow.uri)
    (steps : List Step) (u m : String) :
    ((runSteps objText objMarkdown objJson objCsv steps
        ⟨[], []⟩).search_corpus).countP
      (fun r => r.uri == u && r.modality == m) ≤ 1 := by
  have hinv := runSteps_Inv objText objMarkdown objJson objCsv hT hM hD steps
    ⟨[], []⟩ ⟨List.nodup_nil, List.nodup_nil, fun r hr => absurd hr (List.not_mem_nil r)⟩
  exact keyNodup_countP_le_one hinv.2.1 u m

/-- Witness for C1: a text run, a markdown run, two identical JSON/CSV runs
(the second a re-ingestion over the same uris) and a vision run, checked at
the JSON document's key. -/
theorem uri_modality_unique_after_runs_witness :
    ((runSteps [⟨"gs://b/text/a.txt", some "hello"⟩, ⟨"gs://b/text/b.txt", none⟩]
        [⟨"gs://b/markdown/m.md", some "# hi"⟩]
        ["gs://b/json/x.json"] ["gs://b/csv/y.csv"]
        [Step.text, Step.markdown, Step.corpusRebuild,
         Step.jsonCsv (fun u => some ("JSON File: " ++ u)) (fun _ => none),
         Step.jsonCsv (fun u => some ("JSON File: " ++ u)) (fun _ => none),
         Step.vision (fun _ => some "Visual Content: cat")]
        ⟨[], []⟩).search_corpus).countP
      (fun r => r.uri == "gs://b/json/x.json" && r.modality == "json") ≤ 1 :=
  uri_modality_unique_after_runs _ _ _ _ (by decide) (by decide) (by decide) _ _ _

theorem embedInv_append {a b : List Record} (ha : embedInv a) (hb : embedInv b) :
    embedInv (a ++ b) := by
  intro r hr
  rcases List.mem_append.mp hr with h | h
  · exact ha r h
  · exact hb r h

theorem embedInv_of_embedding_none {c : List Record}
    (h : ∀ r ∈ c, r.embedding = none) : embedInv c :=
  fun r hr _ => h r hr

theorem ingest_text_embedInv (objText : List ObjRow) (docs : List Record)
    (h : embedInv docs) : embedInv (ingest_text objText docs) :=
  embedInv_append h (embedInv_of_embedding_none (by
    intro r hr
    obtain ⟨o, _, rfl⟩ := List.mem_map.mp hr
    rfl))

theorem ingest_markdown_embedInv (objMarkdown : List ObjRow) (docs : List Record)
    (h : embedInv docs) : embedInv (ingest_markdown objMarkdown docs) :=
  embedInv_append h (embedInv_of_embedding_none (by
    intro r hr
    obtain ⟨o, _, rfl⟩ := List.mem_map.mp hr
    rfl))

theorem create_search_corpus_embedInv (docs : List Record) :
    embedInv (create_search_corpus docs) :=
  embedInv_of_embedding_none (by
    intro r hr
    obtain ⟨r', _, rfl⟩ := List.mem_map.mp hr
    rfl)

theorem process_uris_embedInv (e : String → Option String) (m : String)
    (us : List String) : embedInv (process_uris e m us) :=
  embedInv_of_embedding_none (by
    intro r hr
    obtain ⟨u, _, hu⟩ := List.mem_filterMap.mp hr
    cases h : e u with
    | none => rw [h] at hu; cases hu
    | some v => rw [h] at hu; cases hu; rfl)

theorem ingest_json_csv_main_embedInv (objJson objCsv : List String)
    (ej ec : String → Option String) (c : List Record) (h : embedInv c) :
    embedInv (ingest_json_csv_main objJson objCsv ej ec c) :=
  embedInv_append h (embedInv_append (process_uris_embedInv _ _ _)
    (process_uris_embedInv _ _ _))

theorem update_text_at_embedInv (u t : String) (c : List Record)
    (h : embedInv c) : embedInv (update_text_at u t c) := by
  intro r' hr' htext
  obtain ⟨r, hr, rfl⟩ := List.mem_map.mp hr'
  by_cases hu : (r.uri == u) = true
  · rw [if_pos hu] at htext ⊢
    cases htext
  · rw [if_neg hu] at htext ⊢
    exact h r hr htext

theorem complete_vision_main_embedInv (ex : String → Option String)
    (c : List Record) (h : embedInv c) :
    embedInv (complete_vision_main ex c).1 := by
  unfold complete_vision_main
  generalize visionRemaining c = us
  suffices hgen : ∀ (us : List String) (acc : List Record × Nat), embedInv acc.1 →
      embedInv ((us.foldl (fun acc u =>
        match ex u with
        | some t => (update_text_at u t acc.1, acc.2 + 1)
        | none => (acc.1, acc.2)) acc).1) by
    exact hgen us (c, 0) h
  intro us
  induction us with
  | nil => intro acc hacc; exact hacc
  | cons u t ih =>
    intro acc hacc
    cases hu : ex u with
    | none => simpa [hu] using ih acc hacc
    | some v =>
      simp only [List.foldl_cons, hu]
      exact ih _ (update_text_at_embedInv _ _ _ hacc)

theorem clearEmptyEmbeddings_embedInv (mf : Option String) (c : List Record)
    (h : embedInv c) : embedInv (clearEmptyEmbeddings mf c) := by
  intro r' hr' htext
  obtain ⟨r, hr, rfl⟩ := List.mem_map.mp hr'
  by_cases hcond : (arrayLengthEq r.embedding 0 && matchesModality mf r) = true
  · rw [if_pos hcond]
  · rw [if_neg hcond] at htext ⊢
    exact h r hr htext

theorem update_embeddings_embedInv (embed : String → List Int) (c : List Record)
    (h : embedInv c) : embedInv (update_embeddings embed c) := by
  intro r' hr' htext
  obtain ⟨r, hr, rfl⟩ := List.mem_map.mp hr'
  cases hrt : r.text_content with
  | none =>
    dsimp only at htext ⊢
    exact h r hr hrt
  | some t =>
    rw [hrt] at htext
    dsimp only at htext ⊢
    by_cases hemb : r.embedding.isNone = true
    · rw [if_pos hemb] at htext
      cases htext
    · rw [if_neg hemb] at htext
      rw [hrt] at htext
      cases htext

theorem step_preserves_EmbedInv (objText objMarkdown : List ObjRow)
    (objJson objCsv : List String) (s : Step) (db : DB) (h : EmbedInv db) :
    EmbedInv (s.apply objText objMarkdown objJson objCsv db) := by
  unfold EmbedInv at h ⊢
  obtain ⟨h1, h2⟩ := h
  cases s with
  | text => exact ⟨ingest_text_embedInv _ _ h1, h2⟩
  | markdown => exact ⟨ingest_markdown_embedInv _ _ h1, h2⟩
  | corpusRebuild => exact ⟨h1, create_search_corpus_embedInv _⟩
  | jsonCsv ej ec => exact ⟨h1, ingest_json_csv_main_embedInv _ _ _ _ _ h2⟩
  | vision ex => exact ⟨h1, complete_vision_main_embedInv _ _ h2⟩
  | stuckFix embed mf =>
    exact ⟨h1, update_embeddings_embedInv _ _ (clearEmptyEmbeddings_embedInv _ _ h2)⟩
  | indexUpdate embed => exact ⟨h1, update_embeddings_embedInv _ _ h2⟩

theorem runSteps_EmbedInv (objText objMarkdown : List ObjRow)
    (objJson objCsv : List String) (steps : List Step) (db : DB)
    (h : EmbedInv db) :
    EmbedInv (runSteps objText objMarkdown objJson objCsv steps db) := by
  induction steps generalizing db with
  | nil => exact h
  | cons s t ih => exact ih _ (step_preserves_EmbedInv _ _ _ _ s db h)

/-- **C2.** After any sequence of runs from the empty database, no record of
either table has an embedding while its canonical text is absent: every
record-creating operation writes `embedding = NULL` (JSON/CSV and
text/markdown insertion) or selects only rows with non-null text while
casting `embedding` to NULL (search-corpus creation), and no modelled
operation writes an embedding to a record whose text is null. -/
theorem no_premature_embedding (objText objMarkdown : List ObjRow)
    (objJson objCsv : List String) (steps : List Step) (r : Record)
    (hr : r ∈ (runSteps objText objMarkdown objJson objCsv steps
          ⟨[], []⟩).documents ++
        (runSteps objText objMarkdown objJson objCsv steps ⟨[], []⟩).search_corpus)
    (htext : r.text_content = none) : r.embedding = none := by
  have hinv := runSteps_EmbedInv objText objMarkdown objJson objCsv steps ⟨[], []⟩
    ⟨fun r hr => absurd hr (List.not_mem_nil r), fun r hr => absurd hr (List.not_mem_nil r)⟩
  exact embedInv_append hinv.1 hinv.2 r hr htext

/-- Witness for C2: a text blob whose `SAFE_CAST` yields NULL text is
ingested, the corpus is rebuilt, a repair run executes — the record keeps a
NULL embedding. -/
theorem no_premature_embedding_witness :
    ({ uri := "gs://b/text/a.txt", modality := "text", source := some "file",
       text_content := none, embedding := none : Record } ∈
        (runSteps [⟨"gs://b/text/a.txt", none⟩] [] ["gs://b/json/x.json"] []
            [Step.text, Step.corpusRebuild,
             Step.jsonCsv (fun _ => some "doc") (fun _ => none),
             Step.stuckFix (fun _ => [1, 2, 3]) none]
            ⟨[], []⟩).documents ++
          (runSteps [⟨"gs://b/text/a.txt", none⟩] [] ["gs://b/json/x.json"] []
              [Step.text, Step.corpusRebuild,
               Step.jsonCsv (fun _ => some "doc") (fun _ => none),
               Step.stuckFix (fun _ => [1, 2, 3]) none]
              ⟨[], []⟩).search_corpus) ∧
      ({ uri := "gs://b/text/a.txt", modality := "text", source := some "file",
         text_content := none, embedding := none : Record }).embedding = none :=
  ⟨by decide,
   no_premature_embedding [⟨"gs://b/text/a.txt", none⟩] [] ["gs://b/json/x.json"] []
     [Step.text, Step.corpusRebuild,
      Step.jsonCsv (fun _ => some "doc") (fun _ => none),
      Step.stuckFix (fun _ => [1, 2, 3]) none] _ (by decide) rfl⟩

theorem arrayLengthEq_eq_any (e : Option (List Int)) (n : Nat) :
    arrayLengthEq e n = e.any (fun v => v.length == n) := by
  cases e <;> rfl

/-- **C3.** `index verify` reports, for every modality present in the corpus,
exactly the four counts `{total, 768-dimension, null, empty}`; its rows are
keyed by distinct modalities, ordered ascending, and a modality occurs as a
row exactly when some record has it. -/
theorem index_verify_spec (corpus : List Record) :
    ((index_verify corpus).map (·.modality)).Nodup ∧
    List.Sorted (· ≤ ·) ((index_verify corpus).map (·.modality)) ∧
    (∀ m : String, (∃ r ∈ corpus, r.modality = m) ↔
      m ∈ (index_verify corpus).map (·.modality)) ∧
    (∀ row ∈ index_verify corpus,
      row.total_docs = corpus.countP (fun r => r.modality == row.modality) ∧
      row.valid_embeddings = corpus.countP (fun r =>
        r.modality == row.modality && r.embedding.any (fun v => v.length == 768)) ∧
      row.null_embeddings = corpus.countP (fun r =>
        r.modality == row.modality && r.embedding.isNone) ∧
      row.empty_embeddings = corpus.countP (fun r =>
        r.modality == row.modality && r.embedding.any (fun v => v.length == 0))) := by
  have hmods : (index_verify corpus).map (·.modality) =
      orderBy (corpus.map (·.modality)).dedup := by
    unfold index_verify
    rw [List.map_map]
    exact List.map_id' _
  refine ⟨?_, ?_, ?_, ?_⟩
  · rw [hmods]
    exact (orderBy_perm _).symm.nodup (List.nodup_dedup _)
  · rw [hmods]
    exact orderBy_sorted _
  · intro m
    rw [hmods, (orderBy_perm _).mem_iff, List.mem_dedup]
    simp only [List.mem_map]
  · intro row hrow
    obtain ⟨m, _, rfl⟩ := List.mem_map.mp hrow
    refine ⟨?_, ?_, ?_, ?_⟩
    · dsimp only
      rw [List.countP_eq_length_filter]
    · dsimp only
      rw [← List.countP_eq_length_filter, List.countP_filter]
      exact List.countP_congr (fun r _ => by
        rw [arrayLengthEq_eq_any, Bool.and_comm])
    · dsimp only
      rw [← List.countP_eq_length_filter, List.countP_filter]
      exact List.countP_congr (fun r _ => by rw [Bool.and_comm])
    · dsimp only
      rw [← List.countP_eq_length_filter, List.countP_filter]
      exact List.countP_congr (fun r _ => by
        rw [arrayLengthEq_eq_any, Bool.and_comm])


set_option maxRecDepth 4000 in
/-- Witness for C3: the verify row of the `image` modality in
`verifyDemoCorpus`. -/
theorem index_verify_spec_witness :
    (({ modality := "image", total_docs := 3, valid_embeddings := 1,
        null_embeddings := 1, empty_embeddings := 1 } : VerifyRow) ∈
      index_verify verifyDemoCorpus) ∧
    ({ modality := "image", total_docs := 3, valid_embeddings := 1,
        null_embeddings := 1, empty_embeddings := 1 } : VerifyRow).total_docs =
      verifyDemoCorpus.countP (fun r => r.modality == "image") :=
  ⟨by decide, ((index_verify_spec verifyDemoCorpus).2.2.2 _ (by decide)).1⟩

/-- **C4.** `fix stuck` is the two-phase clear-then-reembed: it first maps
every record whose embedding is present but zero-length (and which passes
the optional modality filter) to one with a NULL embedding — leaving every
other record, in particular those with non-empty embeddings, untouched —
and only the cleared corpus is handed to the re-embedding script. -/
theorem fix_stuck_two_phase (embed : String → List Int) (mf : Option String)
    (corpus : List Record) :
    fix_stuck embed mf corpus =
      update_embeddings embed (clearEmptyEmbeddings mf corpus) ∧
    clearEmptyEmbeddings mf corpus = corpus.map (fun r =>
      if r.embedding = some ([] : List Int) ∧ matchesModality mf r = true
      then { r with embedding := none } else r) ∧
    (∀ m r, matchesModality (some m) r = true ↔ r.modality = m) ∧
    (∀ r, matchesModality none r = true) := by
  refine ⟨rfl, ?_, ?_, ?_⟩
  · unfold clearEmptyEmbeddings
    apply List.map_congr_left
    intro r _
    cases hre : r.embedding with
    | none => simp [arrayLengthEq, hre]
    | some v =>
      cases v with
      | nil =>
        cases hmm : matchesModality mf r <;>
          simp [arrayLengthEq, hre, hmm]
      | cons a t => simp [arrayLengthEq, hre]
  · intro m r
    simp [matchesModality]
  · intro r
    rfl

theorem pyJoin_append_last (sep y : String) :
    ∀ (l : List String), l ≠ [] →
      pyJoin sep (l ++ [y]) = pyJoin sep l ++ sep ++ y
  | [], h => absurd rfl h
  | [x], _ => rfl
  | x :: z :: t, _ => by
    have ih := pyJoin_append_last sep y (z :: t) (by simp)
    rw [List.cons_append] at ih
    calc pyJoin sep ((x :: z :: t) ++ [y])
        = x ++ sep ++ pyJoin sep (z :: (t ++ [y])) := rfl
      _ = x ++ sep ++ (pyJoin sep (z :: t) ++ sep ++ y) := by rw [ih]
      _ = x ++ sep ++ pyJoin sep (z :: t) ++ sep ++ y := by
          simp [String.append_assoc]

theorem pyJoin_mem_length (sep : String) :
    ∀ (l : List String) (p : String), p ∈ l → p.length ≤ (pyJoin sep l).length
  | [], p, hp => absurd hp (List.not_mem_nil p)
  | [x], p, hp => by
    rw [List.mem_singleton.mp hp]
    exact Nat.le_refl _
  | x :: z :: t, p, hp => by
    rcases List.mem_cons.mp hp with rfl | hp'
    · simp only [pyJoin, String.length_append]
      omega
    · have ih := pyJoin_mem_length sep (z :: t) p hp'
      simp only [pyJoin, String.length_append]
      omega

theorem pyTake_length (n : Nat) (s : String) :
    (pyTake n s).length = min n s.length := by
  show (s.data.take n).length = min n s.data.length
  simp [List.length_take]

theorem pyTake_of_length_le (n : Nat) (s : String) (h : s.length ≤ n) :
    pyTake n s = s := by
  unfold pyTake
  rw [List.take_of_length_le h]

theorem spaces_length (n : Nat) : (spaces n).length = n := by
  show (List.replicate n ' ').length = n
  simp

theorem dumps_nestedArr_length (k : Nat) :
    (dumps (nestedArr k)).length = 2 * (k + 1) := by
  induction k with
  | zero =>
    show (dumps (Json.arr [])).length = 2
    rw [dumps, dumpsList]
    rfl
  | succ n ih =>
    show (dumps (Json.arr [nestedArr n])).length = 2 * (n + 2)
    rw [dumps, dumpsList]
    simp only [String.length_append]
    have h1 : ("[" : String).length = 1 := rfl
    have h2 : ("]" : String).length = 1 := rfl
    omega

theorem dumpsIndentAt_nestedArr_length (k : Nat) : ∀ (lvl : Nat),
    (dumpsIndentAt lvl (nestedArr k)).length = 2 * (k + 1) ^ 2 + 4 * k * lvl := by
  induction k with
  | zero =>
    intro lvl
    show (dumpsIndentAt lvl (Json.arr [])).length = _
    rw [dumpsIndentAt]
    have hl : ("[]" : String).length = 2 := rfl
    rw [hl]
    norm_num
  | succ n ih =>
    intro lvl
    show (dumpsIndentAt lvl (Json.arr [nestedArr n])).length = _
    rw [dumpsIndentAt, dumpsIndentList]
    simp only [String.length_append, spaces_length, ih (lvl + 1)]
    have h1 : ("[\n" : String).length = 2 := rfl
    have h2 : ("\n" : String).length = 1 := rfl
    have h3 : ("]" : String).length = 1 := rfl
    rw [h1, h2, h3]
    ring

theorem dumpsIndent_nestedArr_50 : (dumpsIndent (nestedArr 50)).length = 5202 := by
  rw [dumpsIndent, dumpsIndentAt_nestedArr_length]
  norm_num

theorem dumps_nestedArr_50 : (dumps (nestedArr 50)).length = 102 := by
  rw [dumps_nestedArr_length]

/-- **C6 counterexample:** on 50-fold nested empty arrays, the indented dump
is 5202 characters and is truncated at 5000, yet no `...[truncated]` suffix
is appended, because the code compares against the length of the *compact*
dump (102 characters): truncation occurs without the marker. -/
theorem json_truncated_without_marker :
    jsonPayload (nestedArr 50) = pyTake 5000 (dumpsIndent (nestedArr 50)) ∧
    pyTake 5000 (dumpsIndent (nestedArr 50)) ≠ dumpsIndent (nestedArr 50) := by
  constructor
  · unfold jsonPayload
    rw [if_neg]
    intro hlt
    rw [pyTake_length, dumpsIndent_nestedArr_50, dumps_nestedArr_50] at hlt
    omega
  · intro heq
    have hlen := congrArg String.length heq
    rw [pyTake_length, dumpsIndent_nestedArr_50] at hlen
    omega

mutual

theorem dumps_le_indent : ∀ (j : Json) (lvl : Nat),
    (dumps j).length ≤ (dumpsIndentAt lvl j).length
  | .str s, lvl => by
    rw [dumps, dumpsIndentAt]
  | .int n, lvl => by
    rw [dumps, dumpsIndentAt]
  | .bool b, lvl => by
    rw [dumps, dumpsIndentAt]
  | .null, lvl => by
    rw [dumps, dumpsIndentAt]
  | .arr [], lvl => by
    rw [dumps, dumpsIndentAt, dumpsList]
    decide
  | .arr (x :: xs), lvl => by
    rw [dumps, dumpsIndentAt]
    simp only [String.length_append, spaces_length]
    have hl := dumpsList_le_indent (x :: xs) (lvl + 1)
    have c1 : ("[" : String).length = 1 := rfl
    have c2 : ("]" : String).length = 1 := rfl
    have c3 : ("[\n" : String).length = 2 := rfl
    have c4 : ("\n" : String).length = 1 := rfl
    omega
  | .obj [], lvl => by
    rw [dumps, dumpsIndentAt, dumpsObjList]
    decide
  | .obj (kv :: kvs), lvl => by
    rw [dumps, dumpsIndentAt]
    simp only [String.length_append, spaces_length]
    have hl := dumpsObjList_le_indent (kv :: kvs) (lvl + 1)
    have c1 : ("\x7b" : String).length = 1 := rfl
    have c2 : ("\x7d" : String).length = 1 := rfl
    have c3 : ("\x7b\n" : String).length = 2 := rfl
    have c4 : ("\n" : String).length = 1 := rfl
    omega

theorem dumpsList_le_indent : ∀ (l : List Json) (lvl : Nat),
    (dumpsList l).length ≤ (dumpsIndentList lvl l).length
  | [], lvl => by
    rw [dumpsList, dumpsIndentList]
  | [x], lvl => by
    rw [dumpsList, dumpsIndentList]
    exact dumps_le_indent x lvl
  | x :: y :: t, lvl => by
    rw [dumpsList, dumpsIndentList]
    simp only [String.length_append, spaces_length]
    have h1 := dumps_le_indent x lvl
    have h2 := dumpsList_le_indent (y :: t) lvl
    have c1 : (", " : String).length = 2 := rfl
    have c2 : (",\n" : String).length = 2 := rfl
    omega

theorem dumpsObjList_le_indent : ∀ (l : List (String × Json)) (lvl : Nat),
    (dumpsObjList l).length ≤ (dumpsIndentObjList lvl l).length
  | [], lvl => by
    rw [dumpsObjList, dumpsIndentObjList]
  | [kv], lvl => by
    rw [dumpsObjList, dumpsIndentObjList]
    simp only [String.length_append]
    have h := dumps_le_indent kv.2 lvl
    omega
  | kv :: kv2 :: t, lvl => by
    rw [dumpsObjList, dumpsIndentObjList]
    simp only [String.length_append, spaces_length]
    have h1 := dumps_le_indent kv.2 lvl
    have h2 := dumpsObjList_le_indent (kv2 :: t) lvl
    have c1 : (", " : String).length = 2 := rfl
    have c2 : (",\n" : String).length = 2 := rfl
    omega

end

/-- **C6 (amended).** The raw payloads are truncated to fixed budgets (5000
characters for the JSON dump, 3000 for the CSV preview).  For the CSV
preview the `...[truncated]` suffix is appended exactly when truncation
occurred.  For the JSON dump the suffix is appended exactly when the
*compact* dump exceeds 5000 characters — which implies truncation of the
indented dump, but truncation can occur without the suffix. -/
theorem truncation_marker_exactness :
    (∀ c : String, csvPreview c =
      if c.length ≤ 3000 then c else pyTake 3000 c ++ "\n... [truncated]") ∧
    (∀ d : Json, jsonPayload d =
      if (dumps d).length ≤ 5000 then pyTake 5000 (dumpsIndent d)
      else pyTake 5000 (dumpsIndent d) ++ "\n... [truncated]") := by
  constructor
  · intro c
    unfold csvPreview
    by_cases hc : c.length ≤ 3000
    · rw [if_pos hc, pyTake_of_length_le _ _ hc, if_neg (lt_irrefl _)]
    · have hcond : (pyTake 3000 c).length < c.length := by
        rw [pyTake_length]
        omega
      rw [if_neg hc, if_pos hcond]
  · intro d
    have hle : (dumps d).length ≤ (dumpsIndent d).length := dumps_le_indent d 0
    unfold jsonPayload
    by_cases hd : (dumps d).length ≤ 5000
    · rw [if_pos hd, if_neg]
      rw [pyTake_length]
      omega
    · have hcond : (pyTake 5000 (dumpsIndent d)).length < (dumps d).length := by
        rw [pyTake_length]
        omega
      rw [if_neg hd, if_pos hcond]

theorem process_json_file_trailer_eq (uri : String) (data : Json) (now : String) :
    process_json_file uri data now =
      pyJoin "\n" (process_json_parts uri data) ++ "\n" ++ ("Indexed: " ++ now) := by
  unfold process_json_file
  exact pyJoin_append_last "\n" ("Indexed: " ++ now) _ (by simp [process_json_parts])

/-- **C5 (amended).** The canonical text of the JSON adapter is a
deterministic function of the uri and parsed content followed by the
run-time trailer `Indexed: <timestamp>`: two runs over unchanged content
agree byte-for-byte on everything before the trailer, but embed the
timestamp of the run in the final line. -/
theorem adapter_determinism_modulo_trailer (uri : String) (data : Json)
    (t1 t2 : String) :
    ∃ body : String,
      process_json_file uri data t1 = body ++ ("Indexed: " ++ t1) ∧
      process_json_file uri data t2 = body ++ ("Indexed: " ++ t2) :=
  ⟨pyJoin "\n" (process_json_parts uri data) ++ "\n",
   process_json_file_trailer_eq uri data t1,
   process_json_file_trailer_eq uri data t2⟩

/-- **C5 counterexample:** two ingestion runs over the same uri and the same
parsed content, one second apart, produce different canonical text — the
adapter embeds `time.strftime(...)` of the moment of the run
(`ingest_json_csv.py` line 84), so its output is not byte-identical across
re-runs. -/
theorem adapter_output_not_run_invariant :
    process_json_file "gs://b/data/sample.json" (Json.obj [("a", Json.int 1)])
        "2025-01-01 00:00:00 UTC" ≠
      process_json_file "gs://b/data/sample.json" (Json.obj [("a", Json.int 1)])
        "2025-01-01 00:00:01 UTC" := by
  intro h
  rw [process_json_file_trailer_eq, process_json_file_trailer_eq] at h
  have hd := congrArg String.data h
  simp only [String.data_append, List.append_assoc] at hd
  have h2 := List.append_cancel_left (List.append_cancel_left
    (List.append_cancel_left hd))
  exact absurd h2 (by decide)

/-- **C7 counterexample:** no fixed bound caps the JSON adapter's output
length: the `Root keys:` line reproduces the (untruncated) object keys, so
a single sufficiently long key pushes `canonical_text` past any bound. -/
theorem canonical_text_length_unbounded :
    ¬ ∃ B : Nat, ∀ n : Nat,
      (process_json_file "gs://b/data/sample.json" (bigKeyObj n)
          "2025-01-01 00:00:00 UTC").length ≤ B := by
  rintro ⟨B, hB⟩
  have hbound := hB (B + 1)
  have hmem : ("Root keys: " ++ String.mk (List.replicate (B + 1) 'K')) ∈
      process_json_parts "gs://b/data/sample.json" (bigKeyObj (B + 1)) := by
    unfold process_json_parts jsonBodyParts bigKeyObj
    simp [pyJoin]
  have hjoin := pyJoin_mem_length "\n" _ _ hmem
  rw [process_json_file_trailer_eq] at hbound
  simp only [String.length_append] at hbound
  have hklen : ("Root keys: " ++ String.mk (List.replicate (B + 1) 'K')).length
      = 11 + (B + 1) := by
    rw [String.length_append]
    have h1 : ("Root keys: " : String).length = 11 := rfl
    have h2 : (String.mk (List.replicate (B + 1) 'K')).length = B + 1 := by
      show (List.replicate (B + 1) 'K').length = B + 1
      simp
    omega
  omega

/-- **C7 (amended).** The embedded raw payloads themselves are bounded:
the JSON dump never exceeds 5000 characters plus the 16-character
truncation marker, the CSV preview never exceeds 3000 plus the marker.
(The full canonical text is *not* bounded by a constant — see the
counterexample — because header lines reproduce uris, keys and headers
untruncated.) -/
theorem payload_length_bounded :
    (∀ d : Json, (jsonPayload d).length ≤ 5016) ∧
    (∀ c : String, (csvPreview c).length ≤ 3016) := by
  have hm : ("\n... [truncated]" : String).length = 16 := rfl
  constructor
  · intro d
    unfold jsonPayload
    split
    · rw [String.length_append, pyTake_length, hm]
      omega
    · rw [pyTake_length]
      omega
  · intro c
    unfold csvPreview
    split
    · rw [String.length_append, pyTake_length, hm]
      omega
    · rw [pyTake_length]
      omega

theorem mem_process_uris {e : String → Option String} {m : String}
    {us : List String} {r : Record} :
    r ∈ process_uris e m us ↔
      ∃ u ∈ us, ∃ t, e u = some t ∧ r = mkIngestDoc m u t := by
  simp only [process_uris, List.mem_filterMap, Option.map_eq_some']
  constructor
  · rintro ⟨u, hu, t, het, rfl⟩
    exact ⟨u, hu, t, het, rfl⟩
  · rintro ⟨u, hu, t, het, rfl⟩
    exact ⟨u, hu, t, het, rfl⟩

theorem process_uris_length_add_failed (e : String → Option String) (m : String) :
    ∀ us : List String,
      (process_uris e m us).length + (failed_uris e us).length = us.length
  | [] => rfl
  | u :: t => by
    have ih := process_uris_length_add_failed e m t
    simp only [process_uris, failed_uris, List.filterMap_cons, List.filter_cons] at ih ⊢
    cases h : e u with
    | none =>
      simp only [h, Option.map_none', Option.isNone_none, if_pos, List.length_cons]
      omega
    | some v => simp only [h, Option.map_some', Option.isNone_some]; simp; omega

theorem complete_vision_main_count (ex : String → Option String)
    (corpus : List Record) :
    (complete_vision_main ex corpus).2 =
      ((visionRemaining corpus).filter (fun u => (ex u).isSome)).length := by
  unfold complete_vision_main
  generalize visionRemaining corpus = us
  suffices hgen : ∀ (us : List String) (acc : List Record × Nat),
      (us.foldl (fun acc u =>
        match ex u with
        | some t => (update_text_at u t acc.1, acc.2 + 1)
        | none => (acc.1, acc.2)) acc).2 =
        acc.2 + (us.filter (fun u => (ex u).isSome)).length by
    simpa using hgen us (corpus, 0)
  intro us
  induction us with
  | nil => intro acc; simp
  | cons u t ih =>
    intro acc
    rw [List.foldl_cons, List.filter_cons]
    cases h : ex u with
    | none => simp only [h, Option.isNone_none]; rw [ih]; simp
    | some v =>
      simp only [h]
      rw [ih]
      simp
      omega

/-- **C8.** Per-document failure isolation in batch passes: a uri whose
adapter fails is logged among the failed uris of the run and contributes no
record; every uri whose adapter succeeds still yields its document
regardless of other failures; successes and failures partition the batch;
and the vision pass counts exactly one success per successfully analyzed
image while continuing past failures. -/
theorem batch_failure_isolation (extract : String → Option String)
    (modality : String) (uris : List String) :
    (∀ u ∈ uris, extract u = none →
      u ∈ failed_uris extract uris ∧
        u ∉ (process_uris extract modality uris).map (·.uri)) ∧
    (∀ u ∈ uris, ∀ t, extract u = some t →
      mkIngestDoc modality u t ∈ process_uris extract modality uris) ∧
    (process_uris extract modality uris).length +
        (failed_uris extract uris).length = uris.length ∧
    (∀ ex : String → Option String, ∀ corpus : List Record,
      (complete_vision_main ex corpus).2 =
        ((visionRemaining corpus).filter (fun u => (ex u).isSome)).length) := by
  refine ⟨?_, ?_, process_uris_length_add_failed _ _ _, ?_⟩
  · intro u hu hnone
    constructor
    · exact List.mem_filter.mpr ⟨hu, by rw [hnone]; rfl⟩
    · intro hmem
      obtain ⟨r, hr, hru⟩ := List.mem_map.mp hmem
      obtain ⟨u', _, t, het, rfl⟩ := mem_process_uris.mp hr
      have : u' = u := hru
      rw [this] at het
      rw [hnone] at het
      cases het
  · intro u hu t het
    exact mem_process_uris.mpr ⟨u, hu, t, het, rfl⟩
  · exact complete_vision_main_count

/-- Witness for C8: a three-uri batch whose middle uri fails extraction. -/
theorem batch_failure_isolation_witness :
    ("gs://b/json/bad.json" ∈ failed_uris
        (fun u => if u == "gs://b/json/bad.json" then none else some ("doc " ++ u))
        ["gs://b/json/a.json", "gs://b/json/bad.json", "gs://b/json/c.json"] ∧
      "gs://b/json/bad.json" ∉
        (process_uris
          (fun u => if u == "gs://b/json/bad.json" then none else some ("doc " ++ u))
          "json"
          ["gs://b/json/a.json", "gs://b/json/bad.json", "gs://b/json/c.json"]).map
          (·.uri)) :=
  (batch_failure_isolation
      (fun u => if u == "gs://b/json/bad.json" then none else some ("doc " ++ u))
      "json"
      ["gs://b/json/a.json", "gs://b/json/bad.json", "gs://b/json/c.json"]).1
    "gs://b/json/bad.json" (by decide) (by decide)

/-- **C9.** One JSON/CSV ingestion run takes at most the first 50 pending
JSON uris and the first 50 pending CSV uris — the pending lists are sorted
ascending, so `take 50` is the 50 smallest — inserts at most 100 new
records while leaving the existing corpus untouched (the result is the old
corpus plus the new documents), and touches no pending uri beyond the
first 50. -/
theorem ingest_json_csv_batch_cap (objJson objCsv : List String)
    (ej ec : String → Option String) (corpus : List Record) :
    ingest_json_csv_main objJson objCsv ej ec corpus =
      corpus ++
        (process_uris ej "json"
            ((pendingUris objJson (jsonCsvExisting corpus)).take 50) ++
          process_uris ec "csv"
            ((pendingUris objCsv (jsonCsvExisting corpus)).take 50)) ∧
    List.Sorted (· ≤ ·) (pendingUris objJson (jsonCsvExisting corpus)) ∧
    List.Sorted (· ≤ ·) (pendingUris objCsv (jsonCsvExisting corpus)) ∧
    (ingest_json_csv_main objJson objCsv ej ec corpus).length ≤
      corpus.length + 100 ∧
    (∀ u ∈ (pendingUris objJson (jsonCsvExisting corpus)).drop 50,
      u ∉ (process_uris ej "json"
          ((pendingUris objJson (jsonCsvExisting corpus)).take 50)).map (·.uri)) ∧
    (∀ u ∈ (pendingUris objCsv (jsonCsvExisting corpus)).drop 50,
      u ∉ (process_uris ec "csv"
          ((pendingUris objCsv (jsonCsvExisting corpus)).take 50)).map (·.uri)) := by
  have hcap : ∀ (e : String → Option String) (m : String) (obj : List String),
      (process_uris e m ((pendingUris obj (jsonCsvExisting corpus)).take 50)).length ≤ 50 := by
    intro e m obj
    calc (process_uris e m ((pendingUris obj (jsonCsvExisting corpus)).take 50)).length
        ≤ ((pendingUris obj (jsonCsvExisting corpus)).take 50).length :=
          List.length_filterMap_le _ _
      _ ≤ 50 := List.length_take_le _ _
  have hdrop : ∀ (e : String → Option String) (m : String) (obj : List String),
      ∀ u ∈ (pendingUris obj (jsonCsvExisting corpus)).drop 50,
        u ∉ (process_uris e m
            ((pendingUris obj (jsonCsvExisting corpus)).take 50)).map (·.uri) := by
    intro e m obj u hu hmem
    obtain ⟨r, hr, hru⟩ := List.mem_map.mp hmem
    have htake : u ∈ (pendingUris obj (jsonCsvExisting corpus)).take 50 := by
      rw [← hru]
      exact process_uris_uri_mem hr
    have hn := pendingUris_nodup obj (jsonCsvExisting corpus)
    rw [← List.take_append_drop 50 (pendingUris obj (jsonCsvExisting corpus))] at hn
    exact (List.nodup_append.mp hn).2.2 htake hu
  refine ⟨rfl, pendingUris_sorted _ _, pendingUris_sorted _ _, ?_,
    hdrop ej "json" objJson, hdrop ec "csv" objCsv⟩
  unfold ingest_json_csv_main
  rw [List.length_append, List.length_append]
  have h1 := hcap ej "json" objJson
  have h2 := hcap ec "csv" objCsv
  omega

/-- Witness for C9: 51 pending JSON uris `u0 … u50`; the last one in
ascending order (`u9`) is beyond the first 50 and gets no record. -/
theorem ingest_json_csv_batch_cap_witness :
    ("u9" ∈ (pendingUris ((List.range 51).map (fun i => "u" ++ toString i))
        (jsonCsvExisting [])).drop 50) ∧
    "u9" ∉ (process_uris (fun u => some u) "json"
        ((pendingUris ((List.range 51).map (fun i => "u" ++ toString i))
          (jsonCsvExisting [])).take 50)).map (·.uri) :=
  ⟨by decide,
   (ingest_json_csv_batch_cap ((List.range 51).map (fun i => "u" ++ toString i))
       [] (fun u => some u) (fun _ => none) []).2.2.2.2.1 "u9" (by decide)⟩

theorem update_text_at_same (u t : String) (c : List Record) :
    ∀ rec ∈ update_text_at u t c, rec.uri = u → rec.text_content = some t := by
  intro rec hrec huri
  obtain ⟨r0, _, rfl⟩ := List.mem_map.mp hrec
  by_cases h : (r0.uri == u) = true
  · rw [if_pos h]
  · rw [if_neg h] at huri
    exact absurd (beq_iff_eq.mpr huri) h

theorem update_text_at_other (uq : String) (v : Option String)
    (up tp : String) (c : List Record) (hne : up ≠ uq)
    (hc : ∀ rec ∈ c, rec.uri = uq → rec.text_content = v) :
    ∀ rec ∈ update_text_at up tp c, rec.uri = uq → rec.text_content = v := by
  intro rec hrec huri
  obtain ⟨r0, hr0, rfl⟩ := List.mem_map.mp hrec
  by_cases h : (r0.uri == up) = true
  · rw [if_pos h] at huri ⊢
    exact absurd ((beq_iff_eq.mp h).symm.trans huri) hne
  · rw [if_neg h] at huri ⊢
    exact hc r0 hr0 huri

theorem fold_update_preserve (uq : String) (v : Option String)
    (indivOk : String → Bool) :
    ∀ (L : List VisionResult) (c : List Record),
      (∀ y ∈ L, y.uri ≠ uq) →
      (∀ rec ∈ c, rec.uri = uq → rec.text_content = v) →
      ∀ rec ∈ L.foldl (fun c r =>
          if indivOk r.uri then update_text_at r.uri (r.text_content.getD "") c
          else c) c,
        rec.uri = uq → rec.text_content = v
  | [], _, _, hc => hc
  | y :: t, c, hL, hc => by
    intro rec hrec huri
    rw [List.foldl_cons] at hrec
    refine fold_update_preserve uq v indivOk t _
      (fun z hz => hL z (List.mem_cons_of_mem _ hz)) ?_ rec hrec huri
    by_cases hok : indivOk y.uri = true
    · rw [if_pos hok]
      exact update_text_at_other uq v y.uri _ c (hL y (List.mem_cons_self _ _)) hc
    · rw [if_neg hok]
      exact hc

theorem fold_update_apply (indivOk : String → Bool) :
    ∀ (L : List VisionResult) (c : List Record),
      (L.map (·.uri)).Nodup →
      (∀ y ∈ L, indivOk y.uri = true) →
      ∀ r ∈ L, ∀ rec ∈ L.foldl (fun c r =>
          if indivOk r.uri then update_text_at r.uri (r.text_content.getD "") c
          else c) c,
        rec.uri = r.uri → rec.text_content = some (r.text_content.getD "")
  | [], _, _, _ => by
    intro r hr
    cases hr
  | x :: t, c, hnodup, hok => by
    intro r hr rec hrec huri
    rw [List.foldl_cons, if_pos (hok x (List.mem_cons_self _ _))] at hrec
    simp only [List.map_cons, List.nodup_cons] at hnodup
    rcases List.mem_cons.mp hr with rfl | hrt
    · refine fold_update_preserve r.uri (some (r.text_content.getD "")) indivOk t _
        ?_ (update_text_at_same r.uri _ c) rec hrec huri
      intro y hy heq
      exact hnodup.1 (heq ▸ List.mem_map_of_mem _ hy)
    · exact fold_update_apply indivOk t _ hnodup.2
        (fun y hy => hok y (List.mem_cons_of_mem _ hy)) r hrt rec hrec huri

/-- **C10.** When the combined batch UPDATE fails, the writer falls back to
per-uri individual updates over exactly the successfully analyzed results:
provided each individual update succeeds (and the batch holds distinct
uris, as one BigQuery UPDATE statement requires), every successfully
analyzed record in the batch is still persisted — the batch failure
prevents none of them. -/
theorem batch_update_fallback (results : List VisionResult)
    (indivOk : String → Bool) (corpus : List Record)
    (hnodup : ((successful_results results).map (·.uri)).Nodup)
    (hindiv : ∀ x ∈ successful_results results, indivOk x.uri = true) :
    ∀ r ∈ successful_results results,
      ∀ rec ∈ update_batch_in_bigquery false indivOk results corpus,
        rec.uri = r.uri → rec.text_content = r.text_content := by
  intro r hr rec hrec huri
  have hne : (successful_results results).isEmpty = false := by
    cases h : successful_results results with
    | nil => rw [h] at hr; cases hr
    | cons a t => rfl
  unfold update_batch_in_bigquery at hrec
  simp only [hne, Bool.false_eq_true, if_false] at hrec
  have hres := fold_update_apply indivOk (successful_results results) corpus
    hnodup hindiv r hr rec hrec huri
  have hsucc := (List.mem_filter.mp hr).2
  cases ht : r.text_content with
  | none =>
    rw [ht] at hsucc
    simp [pyTruthy] at hsucc
  | some s =>
    rw [ht] at hres
    simp only [Option.getD_some] at hres
    exact hres


/-- Witness for C10: with the batch statement failing and individual
updates succeeding, the first analyzed image's text is persisted. -/
theorem batch_update_fallback_witness :
    ({ uri := "gs://b/images/a.png", modality := "image", source := none,
       text_content := some "Image File: a", embedding := none : Record }).text_content =
      ({ uri := "gs://b/images/a.png", text_content := some "Image File: a",
         success := true : VisionResult }).text_content :=
  batch_update_fallback demoResults (fun _ => true) demoVisionCorpus
    (by decide) (by decide)
    { uri := "gs://b/images/a.png", text_content := some "Image File: a",
      success := true } (by decide)
    { uri := "gs://b/images/a.png", modality := "image", source := none,
      text_content := some "Image File: a", embedding := none } (by decide) rfl

end Grepctl
